import Mathlib

/-!
Verification of the quiz delivery and answer-tracking engine
(`src/db.ts`, `src/bot.ts`, `src/fetchDb.ts`).

Modelling conventions:
- JS strings are Lean `String`; payload scanning (`split(":")`) is modelled
  over `List Char` by `jsSplit`.
- The sqlite tables `questions` and `attempts` are lists in insertion order;
  `DbState` bundles both.  Auto-assigned columns (`id`, `answered_at`,
  `created_at`) are omitted except where a claim needs them.
- JS exceptions are `Except String`.
-/

/-- A row of the `questions` table (`Question` in `src/db.ts`). -/
structure Question where
  id : String
  notion_page_id : String
  leetcode_question : String
  question : String
  correct_answer : String
  explanation : String
deriving DecidableEq

/-- A row of the `attempts` table, without the auto-assigned
`id`/`answered_at` columns (`QuestionAttempt` in `src/db.ts`). -/
structure AttemptRow where
  question_id : String
  selected_answer : String
  correct : Bool
deriving DecidableEq

/-- The two tables owned by `Db`, each in insertion order. -/
structure DbState where
  questions : List Question
  attempts : List AttemptRow
deriving DecidableEq

/-- `Db.getQuestion`: `SELECT * FROM questions WHERE id = ?` (first match). -/
def getQuestion (st : DbState) (id : String) : Option Question :=
  st.questions.find? (fun q => q.id == id)

/-- JS `String.prototype.toLowerCase` on the ASCII range (option labels and
question ids are ASCII). -/
def jsToLower (s : String) : String :=
  String.mk (s.data.map Char.toLower)

/-- The correctness comparison in `Db.recordAttempt`:
`qn.correct_answer.toLowerCase() === selectedAnswer.toLowerCase()`. -/
def isCorrectFor (qn : Question) (selectedAnswer : String) : Bool :=
  jsToLower qn.correct_answer == jsToLower selectedAnswer

/-- `Db.recordAttempt`: look the question up, throw `"Question not found"`
if absent, otherwise compute correctness, insert one attempt row and
return the question together with the flag. -/
def recordAttempt (st : DbState) (questionId selectedAnswer : String) :
    Except String (DbState × Question × Bool) :=
  match getQuestion st questionId with
  | none => Except.error "Question not found"
  | some qn =>
      let correct := isCorrectFor qn selectedAnswer
      Except.ok
        ({ st with
            attempts := st.attempts ++ [⟨questionId, selectedAnswer, correct⟩] },
          qn, correct)

/-- The state a caller of `Db.recordAttempt` observes afterwards: on a throw
the insert never ran, so the state is unchanged. -/
def recordAttemptState (st : DbState) (questionId selectedAnswer : String) :
    DbState :=
  match recordAttempt st questionId selectedAnswer with
  | Except.error _ => st
  | Except.ok (st', _, _) => st'

/-- `Db.insertQuestion`: `INSERT INTO questions ...`; the `PRIMARY KEY`
constraint on `id` makes the insert throw when the id already exists. -/
def insertQuestion (st : DbState) (q : Question) : Except String DbState :=
  if st.questions.any (fun r => r.id == q.id) then
    Except.error "UNIQUE constraint failed: questions.id"
  else
    Except.ok { st with questions := st.questions ++ [q] }

/-- The attempt row `recordAttempt` inserts for a selection on question
`qn`. -/
def attemptRowFor (questionId selectedAnswer : String) (qn : Question) :
    AttemptRow :=
  ⟨questionId, selectedAnswer, isCorrectFor qn selectedAnswer⟩

/-- One entry of the `options` array of `McqQuestionSchema`
(`src/fetchDb.ts`): `{content: string, is_correct: boolean}`. -/
structure McqOption where
  content : String
  is_correct : Bool
deriving DecidableEq

/-- The payload validated by `McqQuestionSchema` (`src/fetchDb.ts`). -/
structure ParsedMcq where
  question : String
  leetcode_description : String
  options : List McqOption
  explanation : String
deriving DecidableEq

/-- `McqQuestion` (`src/fetchDb.ts`): a schema-validated payload plus the
freshly generated `nanoid`. -/
structure McqQuestion where
  parsed : ParsedMcq
  id : String
deriving DecidableEq

/-- A JSON value, the raw structured output of the generation service. -/
inductive Json where
  | str (s : String)
  | boolean (b : Bool)
  | num (n : Int)
  | arr (xs : List Json)
  | obj (fields : List (String × Json))
  | null

/-- `z.string()`: accept exactly JSON strings. -/
def parseStr : Json → Option String
  | Json.str s => some s
  | _ => none

/-- `z.boolean()`: accept exactly JSON booleans. -/
def parseBoolJson : Json → Option Bool
  | Json.boolean b => some b
  | _ => none

/-- The option object schema inside `McqQuestionSchema`: an object with a
string `content` and a boolean `is_correct` (zod strips unknown keys). -/
def parseMcqOption : Json → Option McqOption
  | Json.obj fields =>
      match (fields.lookup "content").bind parseStr,
            (fields.lookup "is_correct").bind parseBoolJson with
      | some c, some b => some ⟨c, b⟩
      | _, _ => none
  | _ => none

/-- `z.array(...)` over the option schema: any length is accepted. -/
def parseMcqOptions : Json → Option (List McqOption)
  | Json.arr xs => xs.mapM parseMcqOption
  | _ => none

/-- `McqQuestionSchema` validation as performed by `client.messages.parse`:
an object with string `question`, `leetcode_description`, `explanation` and
an `options` array of option objects. -/
def mcqSchemaParse : Json → Option ParsedMcq
  | Json.obj fields =>
      match (fields.lookup "question").bind parseStr,
            (fields.lookup "leetcode_description").bind parseStr,
            (fields.lookup "options").bind parseMcqOptions,
            (fields.lookup "explanation").bind parseStr with
      | some q, some d, some o, some e => some ⟨q, d, o, e⟩
      | _, _, _, _ => none
  | _ => none

/-- The loop body of `generateMcqs`: one generation response per candidate;
when `parsed_output` is present (schema-valid) the MCQ is kept with a fresh
`nanoid`, otherwise nothing is pushed.  `k` counts the ids consumed so
far. -/
def generateMcqsGo (fresh : Nat → String) : List Json → Nat → List McqQuestion
  | [], _ => []
  | r :: rs, k =>
      match mcqSchemaParse r with
      | some p => ⟨p, fresh k⟩ :: generateMcqsGo fresh rs (k + 1)
      | none => generateMcqsGo fresh rs k

/-- `generateMcqs` (`src/fetchDb.ts`), with the generation service replaced
by the list of its raw responses and `nanoid` by an id supply. -/
def generateMcqs (responses : List Json) (fresh : Nat → String) :
    List McqQuestion :=
  generateMcqsGo fresh responses 0

/-- `Array.prototype.findIndex`: index of the first match, `-1` if none. -/
def jsFindIndex {α : Type} (p : α → Bool) : List α → Int
  | [] => -1
  | x :: xs =>
      if p x then 0
      else
        let r := jsFindIndex p xs
        if r = -1 then -1 else r + 1

/-- The JS nullish-coalescing operator `a ?? b` on a number-or-nullish left
operand. -/
def jsNullishNum (a : Option Int) (b : Int) : Int := a.getD b

/-- `String.fromCharCode`: the argument is converted to Uint16 and the
one-character string with that code is returned. -/
def jsFromCharCode (n : Int) : String :=
  String.mk [Char.ofNat (n % 65536).toNat]

/-- The row built by `saveToDb` (`src/fetchDb.ts`) for one MCQ.  In the
source the `correct_answer` expression is
`String.fromCharCode(65 + mcq.options.findIndex((opt) => opt.is_correct) ?? 26)`;
`+` binds tighter than `??`, so the left operand of `??` is the whole sum —
a number, hence never nullish, which the `some (...)` records. -/
def rowOfMcq (databaseId : Option String) (mcq : McqQuestion) : Question :=
  { id := mcq.id
    notion_page_id := databaseId.getD ""
    leetcode_question := mcq.parsed.leetcode_description
    question := mcq.parsed.question
    correct_answer := jsFromCharCode
      (jsNullishNum
        (some (65 + jsFindIndex (fun opt => opt.is_correct) mcq.parsed.options))
        26)
    explanation := mcq.parsed.explanation }

/-- JS `String.prototype.split` with a one-character separator, over the
character list of the string.  `"".split(sep)` is `[""]`. -/
def jsSplit (sep : Char) : List Char → List (List Char)
  | [] => [[]]
  | c :: cs =>
      let r := jsSplit sep cs
      if c = sep then [] :: r
      else (c :: r.headD []) :: r.tail

/-- The option label generated in `sendToTelegram`:
`String.fromCharCode(65 + idx)`. -/
def jsLabelChar (idx : Nat) : Char :=
  Char.ofNat ((65 + idx) % 65536)

/-- The `callback_data` built in `sendToTelegram`:
`answer:${String.fromCharCode(65 + idx)}:${mcq.id}`. -/
def encodeCallbackData (idx : Nat) (questionId : List Char) : List Char :=
  "answer".data ++ ':' :: jsLabelChar idx :: ':' :: questionId

/-- An inbound `callback_query`, reduced to the fields the webhook handler
reads. -/
structure Callback where
  id : String
  data : List Char
deriving DecidableEq

/-- Outcome of one chat-transport call (`fetch` resolves or rejects). -/
inductive TransportResult where
  | ok
  | err
deriving DecidableEq

/-- Observable outcome of `handleAnswer`: an attempt row was recorded, or
the thrown store error was caught and logged. -/
inductive HandlerOutcome where
  | recorded (correct : Bool)
  | failed
deriving DecidableEq

/-- `handleAnswer` (`src/bot.ts`) acting on the store.  A missing `answer`
or `questionId` component (payload with fewer than three `:`-parts
destructures to `undefined`) makes `recordAttempt` throw before any insert
— statement binding of `undefined`, or `toLowerCase` on `undefined` — and
the `try/catch` logs the error and sends a failure notification. -/
def handleAnswerModel (st : DbState) (answer questionId : Option String) :
    DbState × HandlerOutcome :=
  match answer, questionId with
  | some ans, some qid =>
      match recordAttempt st qid ans with
      | Except.ok (st', _, correct) => (st', HandlerOutcome.recorded correct)
      | Except.error _ => (st, HandlerOutcome.failed)
  | _, _ => (st, HandlerOutcome.failed)

/-- The `POST /telegram-webhook` handler (`src/bot.ts`).  The result's
second component is the HTTP status sent, `none` when the handler throws
before reaching `res.sendStatus(200)`: `answerCallbackQuery` and
`removeInlineKeyboard` are awaited without any `try/catch`, so a rejected
transport call aborts the handler.  Store failures inside `handleAnswer`
are caught there and still reach the 200. -/
def webhookPost (callback : Option Callback)
    (ackResult editResult : TransportResult) (st : DbState) :
    DbState × Option Nat :=
  match callback with
  | none => (st, some 200)
  | some cb =>
      match ackResult with
      | TransportResult.err => (st, none)
      | TransportResult.ok =>
          match editResult with
          | TransportResult.err => (st, none)
          | TransportResult.ok =>
              let parts := (jsSplit ':' cb.data).map (fun l => String.mk l)
              let r := handleAnswerModel st parts[1]? parts[2]?
              (r.1, some 200)

/-- Modelled from the spec: the streak attempt record.  The streak
implementation (`Db.getStreak`, called from `src/bot.ts`) is absent from
`src/`; §4.5 reads attempts by local calendar date, so an attempt is
abstracted to its correctness flag and the local calendar day index of its
`answered_at`. -/
structure Attempt where
  correct : Bool
  day : Int
deriving DecidableEq

/-- Whether some attempt on local day `d` is correct. -/
def hasCorrectOn (attempts : List Attempt) (d : Int) : Bool :=
  attempts.any (fun a => a.correct && a.day == d)

/-- Walk backward one calendar day at a time while each day has a correct
attempt; `fuel` bounds the walk. -/
def streakGo (attempts : List Attempt) : Int → Nat → Nat
  | _, 0 => 0
  | d, fuel + 1 =>
      if hasCorrectOn attempts d then streakGo attempts (d - 1) fuel + 1
      else 0

/-- Modelled from the spec: `getCurrentStreak(asOf)` (§4.5), the number of
consecutive calendar days walking backward from `asOf` each having at least
one correct attempt, stopping at the first day with none.  The
implementation (`Db.getStreak`) is absent from `src/`.  A streak of `n`
needs correct attempts on `n` distinct days, so `attempts.length + 1` fuel
never truncates the walk. -/
def getCurrentStreak (attempts : List Attempt) (asOf : Int) : Nat :=
  streakGo attempts asOf (attempts.length + 1)

/-- Claim C1: `recordAttempt` fails with the question-not-found error when
`questionId` references no existing question, and then the attempts table is
unchanged; when the question exists it appends exactly one attempt row and
returns the original question with the computed correctness flag. -/
theorem recordAttempt_notFound_or_appendsOne
    (st : DbState) (questionId selectedAnswer : String) :
    (getQuestion st questionId = none →
      recordAttempt st questionId selectedAnswer =
        Except.error "Question not found" ∧
      recordAttemptState st questionId selectedAnswer = st) ∧
    (∀ qn, getQuestion st questionId = some qn →
      recordAttempt st questionId selectedAnswer =
        Except.ok
          ({ questions := st.questions,
             attempts := st.attempts ++
               [⟨questionId, selectedAnswer, isCorrectFor qn selectedAnswer⟩] },
            qn, isCorrectFor qn selectedAnswer)) := by
  constructor
  · intro h
    constructor
    · simp [recordAttempt, h]
    · simp [recordAttemptState, recordAttempt, h]
  · intro qn h
    simp [recordAttempt, h]

/-- Claim C1 witness: the unknown id `Q999` makes `recordAttempt` fail and
leaves the attempts table unchanged. -/
theorem recordAttempt_notFound_or_appendsOne_witness :
    recordAttempt ⟨[], []⟩ "Q999" "A" = Except.error "Question not found" ∧
    recordAttemptState ⟨[], []⟩ "Q999" "A" = (⟨[], []⟩ : DbState) :=
  (recordAttempt_notFound_or_appendsOne ⟨[], []⟩ "Q999" "A").1 (by decide)

/-- Claim C2: the correctness flag returned and stored by `recordAttempt` is
true exactly when the selected label equals the stored correct answer under
case-insensitive comparison. -/
theorem recordAttempt_correct_iff_caseInsensitive
    (st st' : DbState) (questionId selectedAnswer : String)
    (qn : Question) (b : Bool)
    (h : recordAttempt st questionId selectedAnswer = Except.ok (st', qn, b)) :
    (b = true ↔ jsToLower selectedAnswer = jsToLower qn.correct_answer) ∧
    st'.attempts = st.attempts ++ [⟨questionId, selectedAnswer, b⟩] := by
  unfold recordAttempt at h
  cases hq : getQuestion st questionId with
  | none => rw [hq] at h; exact absurd h (by simp)
  | some q =>
      rw [hq] at h
      simp only [Except.ok.injEq, Prod.mk.injEq] at h
      obtain ⟨hst, hqn, hb⟩ := h
      subst hst hqn hb
      constructor
      · simp only [isCorrectFor, beq_iff_eq]
        exact eq_comm
      · rfl

/-- Claim C2 witness: selected label `"a"` matches stored correct label
`"A"`, and the appended attempt row stores `correct = true`. -/
theorem recordAttempt_correct_iff_caseInsensitive_witness :
    ((true = true) ↔ jsToLower "a" = jsToLower "A") ∧
    ({ questions := [⟨"Q1", "", "", "", "A", ""⟩],
       attempts := [(⟨"Q1", "a", true⟩ : AttemptRow)] } : DbState).attempts =
      ([] : List AttemptRow) ++ [⟨"Q1", "a", true⟩] :=
  recordAttempt_correct_iff_caseInsensitive
    ⟨[⟨"Q1", "", "", "", "A", ""⟩], []⟩
    ⟨[⟨"Q1", "", "", "", "A", ""⟩], [⟨"Q1", "a", true⟩]⟩
    "Q1" "a" ⟨"Q1", "", "", "", "A", ""⟩ true rfl

/-- Claim C8: two consecutive `recordAttempt` calls with the same arguments
each append one fresh attempt row, leave every previously stored attempt row
in place, and leave the questions table untouched. -/
theorem recordAttempt_twice_appendOnly
    (st : DbState) (questionId selectedAnswer : String) (qn : Question)
    (h : getQuestion st questionId = some qn) :
    ∃ st1 st2,
      recordAttempt st questionId selectedAnswer =
        Except.ok (st1, qn, isCorrectFor qn selectedAnswer) ∧
      recordAttempt st1 questionId selectedAnswer =
        Except.ok (st2, qn, isCorrectFor qn selectedAnswer) ∧
      st1.questions = st.questions ∧
      st2.questions = st.questions ∧
      st1.attempts = st.attempts ++ [attemptRowFor questionId selectedAnswer qn] ∧
      st2.attempts = st.attempts ++
        [attemptRowFor questionId selectedAnswer qn,
         attemptRowFor questionId selectedAnswer qn] := by
  refine ⟨{ st with attempts := st.attempts ++
      [attemptRowFor questionId selectedAnswer qn] },
    { st with attempts := st.attempts ++
      [attemptRowFor questionId selectedAnswer qn,
       attemptRowFor questionId selectedAnswer qn] }, ?_, ?_, rfl, rfl, rfl, rfl⟩
  · simp [recordAttempt, h, attemptRowFor]
  · have h1 : getQuestion
        ⟨st.questions,
          st.attempts ++ [⟨questionId, selectedAnswer,
            isCorrectFor qn selectedAnswer⟩]⟩ questionId = some qn := h
    simp [recordAttempt, h1, attemptRowFor]

/-- Claim C8 witness: answering question `Q1` twice with label `B` appends
two rows and never touches the questions table. -/
theorem recordAttempt_twice_appendOnly_witness :
    ∃ st1 st2,
      recordAttempt ⟨[⟨"Q1", "", "", "", "B", ""⟩], []⟩ "Q1" "B" =
        Except.ok (st1, ⟨"Q1", "", "", "", "B", ""⟩,
          isCorrectFor ⟨"Q1", "", "", "", "B", ""⟩ "B") ∧
      recordAttempt st1 "Q1" "B" =
        Except.ok (st2, ⟨"Q1", "", "", "", "B", ""⟩,
          isCorrectFor ⟨"Q1", "", "", "", "B", ""⟩ "B") ∧
      st1.questions = [⟨"Q1", "", "", "", "B", ""⟩] ∧
      st2.questions = [⟨"Q1", "", "", "", "B", ""⟩] ∧
      st1.attempts = [] ++ [attemptRowFor "Q1" "B" ⟨"Q1", "", "", "", "B", ""⟩] ∧
      st2.attempts = [] ++
        [attemptRowFor "Q1" "B" ⟨"Q1", "", "", "", "B", ""⟩,
         attemptRowFor "Q1" "B" ⟨"Q1", "", "", "", "B", ""⟩] :=
  recordAttempt_twice_appendOnly ⟨[⟨"Q1", "", "", "", "B", ""⟩], []⟩ "Q1" "B"
    ⟨"Q1", "", "", "", "B", ""⟩ (by decide)

/-- `findIndex` returns `-1` exactly on a list with no match. -/
theorem jsFindIndex_of_all_false {α : Type} (p : α → Bool) (l : List α)
    (h : ∀ x ∈ l, p x = false) : jsFindIndex p l = -1 := by
  induction l with
  | nil => rfl
  | cons x xs ih =>
      have hx : p x = false := h x (List.mem_cons_self x xs)
      have hxs : jsFindIndex p xs = -1 :=
        ih (fun y hy => h y (List.mem_cons_of_mem x hy))
      simp [jsFindIndex, hx, hxs]

/-- Claim C10: the `?? 26` fallback in `saveToDb` is dead code — the stored
`correct_answer` always equals the character at code `65 + findIndex`, and
when no option is marked correct (`findIndex` is `-1`) that character is
`"@"` (code 64). -/
theorem saveToDb_fallback_dead (databaseId : Option String)
    (mcq : McqQuestion) :
    (rowOfMcq databaseId mcq).correct_answer =
      jsFromCharCode
        (65 + jsFindIndex (fun opt => opt.is_correct) mcq.parsed.options) ∧
    ((∀ opt ∈ mcq.parsed.options, opt.is_correct = false) →
      (rowOfMcq databaseId mcq).correct_answer = "@") := by
  constructor
  · rfl
  · intro h
    have hf : jsFindIndex (fun opt => opt.is_correct) mcq.parsed.options = -1 :=
      jsFindIndex_of_all_false _ _ h
    show jsFromCharCode
        (jsNullishNum
          (some (65 + jsFindIndex (fun opt => opt.is_correct) mcq.parsed.options))
          26) = "@"
    rw [hf]
    decide

/-- Claim C10 witness: a two-option MCQ with no correct option stores
`correct_answer = "@"`, with the fallback never taken. -/
theorem saveToDb_fallback_dead_witness :
    (rowOfMcq none ⟨⟨"q", "d", [⟨"o1", false⟩, ⟨"o2", false⟩], "e"⟩, "Q1"⟩).correct_answer
        = "@" :=
  (saveToDb_fallback_dead none
    ⟨⟨"q", "d", [⟨"o1", false⟩, ⟨"o2", false⟩], "e"⟩, "Q1"⟩).2 (by decide)

/-- `find?` over an appended singleton when nothing in the prefix
matches. -/
theorem find?_append_singleton {α : Type} (p : α → Bool) (l : List α) (a : α)
    (hl : ∀ x ∈ l, p x = false) (ha : p a = true) :
    (l ++ [a]).find? p = some a := by
  induction l with
  | nil => simp [List.find?, ha]
  | cons x xs ih =>
      have hx : p x = false := hl x (List.mem_cons_self x xs)
      have ih' := ih (fun y hy => hl y (List.mem_cons_of_mem x hy))
      simp [List.find?, hx, ih']

/-- Claim C7 (amended): a question row inserted by `insertQuestion` and then
fetched by `getQuestion` on its id comes back identical in every stored
field. -/
theorem insertQuestion_getQuestion_roundtrip (st : DbState) (q : Question)
    (st' : DbState) (h : insertQuestion st q = Except.ok st') :
    getQuestion st' q.id = some q := by
  unfold insertQuestion at h
  by_cases hd : st.questions.any (fun r => r.id == q.id)
  · rw [if_pos hd] at h
    exact absurd h (by simp)
  · rw [if_neg hd] at h
    simp only [Except.ok.injEq] at h
    subst h
    have hall : ∀ x ∈ st.questions, (x.id == q.id) = false := by
      intro x hx
      by_contra hb
      exact hd (List.any_eq_true.mpr ⟨x, hx, by simpa using hb⟩)
    exact find?_append_singleton _ st.questions q hall (by simp)

/-- Claim C7 witness: a concrete question round-trips through insert and
fetch. -/
theorem insertQuestion_getQuestion_roundtrip_witness :
    getQuestion ⟨[⟨"Q1", "n", "l", "q", "A", "e"⟩], []⟩ "Q1" =
      some ⟨"Q1", "n", "l", "q", "A", "e"⟩ :=
  insertQuestion_getQuestion_roundtrip ⟨[], []⟩ ⟨"Q1", "n", "l", "q", "A", "e"⟩
    ⟨[⟨"Q1", "n", "l", "q", "A", "e"⟩], []⟩ rfl

/-- Claim C7 counterexample: the `questions` table has no options column, so
persisting forgets the options — two MCQs differing only in option content
produce the same stored row, hence no fetch can return byte-identical
options for both. -/
theorem persistedRow_forgets_options :
    rowOfMcq none ⟨⟨"q", "d", [⟨"x", true⟩], "e"⟩, "Q1"⟩ =
      rowOfMcq none ⟨⟨"q", "d", [⟨"y", true⟩], "e"⟩, "Q1"⟩ ∧
    (⟨⟨"q", "d", [⟨"x", true⟩], "e"⟩, "Q1"⟩ : McqQuestion).parsed.options ≠
      (⟨⟨"q", "d", [⟨"y", true⟩], "e"⟩, "Q1"⟩ : McqQuestion).parsed.options := by
  constructor
  · rfl
  · decide

/-- `generateMcqsGo` keeps exactly the schema-valid responses, whatever the
id counter. -/
theorem generateMcqsGo_map_parsed (fresh : Nat → String) (rs : List Json) :
    ∀ k, (generateMcqsGo fresh rs k).map McqQuestion.parsed =
      rs.filterMap mcqSchemaParse := by
  induction rs with
  | nil => intro k; rfl
  | cons r rs ih =>
      intro k
      cases h : mcqSchemaParse r with
      | some p => simp [generateMcqsGo, h, List.filterMap_cons, ih]
      | none => simp [generateMcqsGo, h, List.filterMap_cons, ih]

/-- Claim C3 (amended): `generateMcqs` keeps, in order, exactly the
responses accepted by `McqQuestionSchema` and discards the rest; the schema
checks field shape only, so neither the option count nor the number of
correct options is constrained. -/
theorem generateMcqs_keeps_exactly_schemaValid (responses : List Json)
    (fresh : Nat → String) :
    (generateMcqs responses fresh).map McqQuestion.parsed =
      responses.filterMap mcqSchemaParse :=
  generateMcqsGo_map_parsed fresh responses 0

/-- Claim C3 counterexample: a response with three options, none of them
correct, passes `McqQuestionSchema` validation and produces a Question
instead of being discarded. -/
theorem mcqSchema_accepts_threeOptions_zeroCorrect :
    mcqSchemaParse (Json.obj
      [("question", Json.str "q"),
       ("leetcode_description", Json.str "d"),
       ("options", Json.arr
         [Json.obj [("content", Json.str "o1"), ("is_correct", Json.boolean false)],
          Json.obj [("content", Json.str "o2"), ("is_correct", Json.boolean false)],
          Json.obj [("content", Json.str "o3"), ("is_correct", Json.boolean false)]]),
       ("explanation", Json.str "e")]) =
      some ⟨"q", "d", [⟨"o1", false⟩, ⟨"o2", false⟩, ⟨"o3", false⟩], "e"⟩ ∧
    ([⟨"o1", false⟩, ⟨"o2", false⟩, ⟨"o3", false⟩] : List McqOption).length ≠ 4 ∧
    ([⟨"o1", false⟩, ⟨"o2", false⟩, ⟨"o3", false⟩] : List McqOption).countP
        (fun o => o.is_correct) ≠ 1 ∧
    generateMcqs [Json.obj
      [("question", Json.str "q"),
       ("leetcode_description", Json.str "d"),
       ("options", Json.arr
         [Json.obj [("content", Json.str "o1"), ("is_correct", Json.boolean false)],
          Json.obj [("content", Json.str "o2"), ("is_correct", Json.boolean false)],
          Json.obj [("content", Json.str "o3"), ("is_correct", Json.boolean false)]]),
       ("explanation", Json.str "e")]] (fun _ => "id0") =
      [⟨⟨"q", "d", [⟨"o1", false⟩, ⟨"o2", false⟩, ⟨"o3", false⟩], "e"⟩, "id0"⟩] := by
  refine ⟨rfl, by decide, by decide, rfl⟩

/-- Splitting a separator-free string yields one part. -/
theorem jsSplit_of_not_mem (sep : Char) (l : List Char) (h : sep ∉ l) :
    jsSplit sep l = [l] := by
  induction l with
  | nil => rfl
  | cons c cs ih =>
      have hc : ¬ c = sep := by
        intro e
        subst e
        exact h (List.mem_cons_self c cs)
      have hcs : jsSplit sep cs = [cs] :=
        ih (fun m => h (List.mem_cons_of_mem c m))
      simp [jsSplit, hcs, hc]

/-- Splitting past a separator-free prefix peels off exactly that prefix. -/
theorem jsSplit_append_sep (sep : Char) (l1 l2 : List Char) (h : sep ∉ l1) :
    jsSplit sep (l1 ++ sep :: l2) = l1 :: jsSplit sep l2 := by
  induction l1 with
  | nil => simp [jsSplit]
  | cons c cs ih =>
      have hc : ¬ c = sep := by
        intro e
        subst e
        exact h (List.mem_cons_self c cs)
      have ih' := ih (fun m => h (List.mem_cons_of_mem c m))
      simp [jsSplit, ih', hc]

/-- `Char.ofNat` on a valid codepoint keeps the code. -/
theorem char_toNat_ofNat_of_valid (m : Nat) (h : m.isValidChar) :
    (Char.ofNat m).toNat = m := by
  rw [Char.ofNat, dif_pos h]
  rfl

/-- Option labels generated as `String.fromCharCode(65 + idx)` never contain
the payload separator. -/
theorem jsLabelChar_ne_colon (idx : Nat) (h : 65 + idx < 55296) :
    jsLabelChar idx ≠ ':' := by
  intro e
  have hm : (65 + idx) % 65536 = 65 + idx := Nat.mod_eq_of_lt (by omega)
  have hv : Nat.isValidChar (65 + idx) := Or.inl (by omega)
  have he := congrArg Char.toNat e
  rw [jsLabelChar, hm, char_toNat_ofNat_of_valid _ hv] at he
  have h58 : Char.toNat ':' = 58 := rfl
  rw [h58] at he
  omega

/-- Claim C4: for any option index (any codepoint below the surrogate
range, which covers every real option list) and any colon-free question id,
splitting the delivered `answer:<label>:<id>` payload on `":"` recovers
exactly the kind, the label and the question id. -/
theorem callbackData_roundtrip (idx : Nat) (questionId : List Char)
    (hidx : 65 + idx < 55296) (hq : ':' ∉ questionId) :
    jsSplit ':' (encodeCallbackData idx questionId) =
      ["answer".data, [jsLabelChar idx], questionId] := by
  have hl : jsLabelChar idx ≠ ':' := jsLabelChar_ne_colon idx hidx
  have h1 : ':' ∉ "answer".data := by decide
  rw [encodeCallbackData, jsSplit_append_sep ':' "answer".data _ h1]
  have h2 : jsSplit ':' (jsLabelChar idx :: ':' :: questionId) =
      [jsLabelChar idx] :: jsSplit ':' questionId := by
    have := jsSplit_append_sep ':' [jsLabelChar idx] questionId
      (by simpa using Ne.symm hl)
    simpa using this
  rw [h2, jsSplit_of_not_mem ':' questionId hq]

/-- Claim C4 witness: label index 1 (`"B"`) and id `"Q1"` round-trip. -/
theorem callbackData_roundtrip_witness :
    jsSplit ':' (encodeCallbackData 1 "Q1".data) =
      ["answer".data, [jsLabelChar 1], "Q1".data] :=
  callbackData_roundtrip 1 "Q1".data (by omega) (by decide)

/-- Claim C6: a malformed payload — fewer than three `:`-delimited parts, so
the destructuring leaves `answer` or `questionId` undefined — makes the
handling path fail (the store call throws, is caught and logged) and writes
no attempt row; the webhook leaves the store untouched. -/
theorem malformedPayload_writesNoAttempt (st : DbState) (cbId : String)
    (data : List Char) (h : (jsSplit ':' data).length < 3) :
    handleAnswerModel st
        ((jsSplit ':' data).map (fun l => String.mk l))[1]?
        ((jsSplit ':' data).map (fun l => String.mk l))[2]? =
      (st, HandlerOutcome.failed) ∧
    (webhookPost (some ⟨cbId, data⟩) TransportResult.ok TransportResult.ok
      st).1 = st := by
  have h2 : ((jsSplit ':' data).map (fun l => String.mk l))[2]? = none := by
    apply List.getElem?_eq_none
    simpa using Nat.le_of_lt_succ (by simpa using h)
  have hm : handleAnswerModel st
      ((jsSplit ':' data).map (fun l => String.mk l))[1]?
      ((jsSplit ':' data).map (fun l => String.mk l))[2]? =
      (st, HandlerOutcome.failed) := by
    rw [h2]
    cases ((jsSplit ':' data).map (fun l => String.mk l))[1]? with
    | none => rfl
    | some a => rfl
  refine ⟨hm, ?_⟩
  simpa [webhookPost] using congrArg Prod.fst hm

/-- Claim C6 witness: the one-part payload `"garbage"` is dropped and the
attempts table stays empty. -/
theorem malformedPayload_writesNoAttempt_witness :
    handleAnswerModel ⟨[], []⟩
        ((jsSplit ':' "garbage".data).map (fun l => String.mk l))[1]?
        ((jsSplit ':' "garbage".data).map (fun l => String.mk l))[2]? =
      (⟨[], []⟩, HandlerOutcome.failed) ∧
    (webhookPost (some ⟨"cb1", "garbage".data⟩) TransportResult.ok
      TransportResult.ok ⟨[], []⟩).1 = (⟨[], []⟩ : DbState) :=
  malformedPayload_writesNoAttempt ⟨[], []⟩ "cb1" "garbage".data (by decide)

/-- Claim C9 (amended): the webhook answers 200 when no callback is present
and whenever the acknowledge and edit transport calls succeed, regardless of
the store outcome inside `handleAnswer`; but a rejected acknowledge or edit
call escapes the handler before `res.sendStatus(200)`, so no success status
is sent then. -/
theorem webhook_responds200_when_transport_ok (callback : Option Callback)
    (st : DbState) (ackResult editResult : TransportResult) :
    (webhookPost callback TransportResult.ok TransportResult.ok st).2 =
      some 200 ∧
    (webhookPost none ackResult editResult st).2 = some 200 := by
  constructor
  · cases callback with
    | none => rfl
    | some cb => rfl
  · rfl

/-- Claim C9 counterexample: with a failing acknowledge call the handler
throws before `res.sendStatus(200)` and no success status is sent. -/
theorem webhook_no200_on_ack_failure :
    (webhookPost (some ⟨"cb1", "answer:A:Q1".data⟩) TransportResult.err
      TransportResult.ok ⟨[], []⟩).2 = none ∧
    (webhookPost (some ⟨"cb1", "answer:A:Q1".data⟩) TransportResult.err
      TransportResult.ok ⟨[], []⟩).2 ≠ some 200 := by
  exact ⟨rfl, by decide⟩

/-- Unfolding equation for one backward step of the streak walk. -/
theorem streakGo_succ_eq (attempts : List Attempt) (d : Int) (fuel : Nat) :
    streakGo attempts d (fuel + 1) =
      if hasCorrectOn attempts d then streakGo attempts (d - 1) fuel + 1
      else 0 := rfl

/-- Every day strictly inside the computed streak has a correct attempt. -/
theorem streakGo_correct_below (attempts : List Attempt) :
    ∀ fuel d k, k < streakGo attempts d fuel →
      hasCorrectOn attempts (d - (k : Int)) = true := by
  intro fuel
  induction fuel with
  | zero =>
      intro d k hk
      simp [streakGo] at hk
  | succ fuel ih =>
      intro d k hk
      rw [streakGo_succ_eq] at hk
      by_cases hd : hasCorrectOn attempts d = true
      · rw [if_pos hd] at hk
        cases k with
        | zero => simpa using hd
        | succ j =>
            have hj : j < streakGo attempts (d - 1) fuel := by omega
            have hih := ih (d - 1) j hj
            have harith : d - 1 - (j : Int) = d - ((j : Nat) + 1 : Nat) := by
              push_cast
              ring
            rw [harith] at hih
            exact hih
      · rw [if_neg hd] at hk
        omega

/-- When the fuel does not truncate the walk, the day right after the
computed streak has no correct attempt. -/
theorem streakGo_stop (attempts : List Attempt) :
    ∀ fuel d, streakGo attempts d fuel < fuel →
      hasCorrectOn attempts (d - (streakGo attempts d fuel : Int)) = false := by
  intro fuel
  induction fuel with
  | zero =>
      intro d h
      omega
  | succ fuel ih =>
      intro d h
      by_cases hd : hasCorrectOn attempts d = true
      · have hrec : streakGo attempts d (fuel + 1) =
            streakGo attempts (d - 1) fuel + 1 := by
          rw [streakGo_succ_eq, if_pos hd]
        rw [hrec] at h ⊢
        have h' : streakGo attempts (d - 1) fuel < fuel := by omega
        have hih := ih (d - 1) h'
        have harith : d - 1 - (streakGo attempts (d - 1) fuel : Int) =
            d - ((streakGo attempts (d - 1) fuel + 1 : Nat) : Int) := by
          push_cast
          ring
        rw [harith] at hih
        exact hih
      · have hb : hasCorrectOn attempts d = false := by
          simpa using hd
        have hrec : streakGo attempts d (fuel + 1) = 0 := by
          rw [streakGo_succ_eq, if_neg hd]
        rw [hrec]
        simpa using hb

/-- A run of `n` consecutive days each holding a correct attempt needs `n`
distinct attempts, so `n` is at most the number of attempts. -/
theorem correct_days_le_length (attempts : List Attempt) (d : Int) (n : Nat)
    (h : ∀ k, k < n → hasCorrectOn attempts (d - (k : Int)) = true) :
    n ≤ attempts.length := by
  have hex : ∀ k : Fin n,
      attempts.findIdx (fun a => a.correct && a.day == d - (k.val : Int)) <
        attempts.length := by
    intro k
    apply List.findIdx_lt_length_of_exists
    have hk := h k.val k.2
    rw [hasCorrectOn, List.any_eq_true] at hk
    obtain ⟨a, ha, hpa⟩ := hk
    exact ⟨a, ha, hpa⟩
  have hsome : ∀ k : Fin n, ∃ a,
      attempts[attempts.findIdx
        (fun a => a.correct && a.day == d - (k.val : Int))]? = some a ∧
      (a.correct && a.day == d - (k.val : Int)) = true := by
    intro k
    refine ⟨_, List.getElem?_eq_getElem (hex k), ?_⟩
    exact @List.findIdx_getElem _ _ _ (hex k)
  have hinj : Function.Injective (fun k : Fin n =>
      (⟨attempts.findIdx (fun a => a.correct && a.day == d - (k.val : Int)),
        hex k⟩ : Fin attempts.length)) := by
    intro k1 k2 he
    have hval : attempts.findIdx
        (fun a => a.correct && a.day == d - (k1.val : Int)) =
      attempts.findIdx
        (fun a => a.correct && a.day == d - (k2.val : Int)) :=
      congrArg Fin.val he
    obtain ⟨a1, ha1, hp1⟩ := hsome k1
    obtain ⟨a2, ha2, hp2⟩ := hsome k2
    rw [hval] at ha1
    rw [ha2] at ha1
    have ha12 : a2 = a1 := by
      injection ha1
    subst ha12
    rw [Bool.and_eq_true, beq_iff_eq] at hp1 hp2
    have hd1 : a2.day = d - (k1.val : Int) := hp1.2
    have hd2 : a2.day = d - (k2.val : Int) := hp2.2
    apply Fin.ext
    omega
  have hcard := Fintype.card_le_of_injective _ hinj
  simpa using hcard

/-- Claim C5: `getCurrentStreak asOf` equals the number of consecutive local
calendar days, walking backward from `asOf`, each containing at least one
correct attempt, stopping at the first day with none — characterized as the
unique `n` whose first `n` backward days all have a correct attempt while
day `asOf - n` has none; in particular a day `asOf` with no correct attempt
gives 0. -/
theorem getCurrentStreak_characterization (attempts : List Attempt)
    (asOf : Int) (n : Nat) :
    getCurrentStreak attempts asOf = n ↔
      ((∀ k, k < n → hasCorrectOn attempts (asOf - (k : Int)) = true) ∧
        hasCorrectOn attempts (asOf - (n : Int)) = false) := by
  have hcorrect : ∀ k, k < getCurrentStreak attempts asOf →
      hasCorrectOn attempts (asOf - (k : Int)) = true :=
    fun k hk =>
      streakGo_correct_below attempts (attempts.length + 1) asOf k hk
  have hle : getCurrentStreak attempts asOf ≤ attempts.length :=
    correct_days_le_length attempts asOf _ hcorrect
  have hlt : streakGo attempts asOf (attempts.length + 1) <
      attempts.length + 1 := by
    have : streakGo attempts asOf (attempts.length + 1) =
        getCurrentStreak attempts asOf := rfl
    omega
  have hstop : hasCorrectOn attempts
      (asOf - (getCurrentStreak attempts asOf : Int)) = false :=
    streakGo_stop attempts (attempts.length + 1) asOf hlt
  constructor
  · intro he
    subst he
    exact ⟨hcorrect, hstop⟩
  · rintro ⟨h1, h2⟩
    rcases Nat.lt_trichotomy (getCurrentStreak attempts asOf) n with hlt2 | he | hgt
    · have hc := h1 _ hlt2
      rw [hc] at hstop
      exact Bool.noConfusion hstop
    · exact he
    · have hc := hcorrect n hgt
      rw [hc] at h2
      exact Bool.noConfusion h2
